import Mathlib

/-!
Shallow embedding of the playback queue engine of the MusicMaster Telegram
bot (`src/services/queue_service.py`, with the track value object from
`src/models/track.py`), together with theorems settling the frozen claims
about it.

The Python `QueueService` keeps five dictionaries keyed by `chat_id`; a key
absent from a dictionary is modelled as `none`.  `Track` is a pydantic
model, so Python `==`, `in` and `list.remove` compare tracks field-wise;
structural equality on the Lean structure is therefore the faithful
semantics.  Methods that mutate `self` are modelled as functions returning
the Python return value paired with the updated service state.
-/

namespace MusicMaster

/-- Track value object, mirroring `src/models/track.py` (`class Track(BaseModel)`).
`added_at` is a creation timestamp (`datetime.now`); it is opaque to the queue
logic and is modelled as a `Nat`.  pydantic derives field-wise equality, which
`DecidableEq` mirrors. -/
structure Track where
  id : String
  title : String
  artist : String
  url : String
  thumbnail : Option String
  duration : Option Int
  source : String
  added_at : Nat
deriving DecidableEq, Repr

/-- State of a `QueueService` instance: the five per-chat dictionaries from
`QueueService.__init__`.  `none` models a `chat_id` absent from the dictionary.
`current_tracks` maps a chat to its current track; the Python dictionary value
`None` and an absent key behave identically everywhere in the class (both are
read through `.get` or guarded by `chat_id in self.current_tracks and
self.current_tracks[chat_id]`), so both are modelled as `none`. -/
structure QueueService where
  queues : Int → Option (List Track)
  current_tracks : Int → Option Track
  history : Int → Option (List Track)
  loop_modes : Int → Option String
  shuffle_modes : Int → Option Bool

/-- Dictionary update `d[k] = v`. -/
def upd {α : Type} (f : Int → Option α) (k : Int) (v : α) : Int → Option α :=
  fun k' => if k' = k then some v else f k'

/-- A freshly constructed `QueueService()`: all five dictionaries empty. -/
def initService : QueueService :=
  ⟨fun _ => none, fun _ => none, fun _ => none, fun _ => none, fun _ => none⟩

/-- `QueueService.get_queue` (pure value view): `self.queues.get(chat_id, [])`.
(The reference-level aliasing behaviour of this method is modelled separately
below for the snapshot claim.) -/
def get_queue (s : QueueService) (chat : Int) : List Track :=
  (s.queues chat).getD []

/-- `QueueService.add_to_queue`: create the chat's list if absent, append. -/
def add_to_queue (s : QueueService) (chat : Int) (track : Track) :
    Bool × QueueService :=
  (true, { s with queues := upd s.queues chat ((s.queues chat).getD [] ++ [track]) })

/-- `QueueService.add_tracks_to_queue`: create if absent, extend, return count. -/
def add_tracks_to_queue (s : QueueService) (chat : Int) (tracks : List Track) :
    Nat × QueueService :=
  (tracks.length,
   { s with queues := upd s.queues chat ((s.queues chat).getD [] ++ tracks) })

/-- `QueueService.clear_queue`: unconditionally sets `self.queues[chat_id] = []`. -/
def clear_queue (s : QueueService) (chat : Int) : Bool × QueueService :=
  (true, { s with queues := upd s.queues chat [] })

/-- `QueueService.remove_from_queue`: `None` when the chat has no queue or the
index is out of range (`index >= len` or `index < 0`), else `list.pop(index)`. -/
def remove_from_queue (s : QueueService) (chat : Int) (index : Int) :
    Option Track × QueueService :=
  match s.queues chat with
  | none => (none, s)
  | some q =>
    if (q.length : Int) ≤ index ∨ index < 0 then (none, s)
    else
      (q[index.toNat]?,
       { s with
          queues := upd s.queues chat (q.take index.toNat ++ q.drop (index.toNat + 1)) })

/-- `QueueService.move_in_queue`: pop at `old_index`, insert at `new_index`. -/
def move_in_queue (s : QueueService) (chat : Int) (old_index new_index : Int) :
    Bool × QueueService :=
  match s.queues chat with
  | none => (false, s)
  | some q =>
    if old_index < 0 ∨ (q.length : Int) ≤ old_index ∨ new_index < 0 ∨
        (q.length : Int) ≤ new_index then
      (false, s)
    else
      match q[old_index.toNat]? with
      | none => (false, s)
      | some t =>
        let q1 := q.take old_index.toNat ++ q.drop (old_index.toNat + 1)
        (true, { s with queues := upd s.queues chat (q1.insertIdx new_index.toNat t) })

/-- `QueueService.get_loop_mode`: `self.loop_modes.get(chat_id, "none")`. -/
def get_loop_mode (s : QueueService) (chat : Int) : String :=
  (s.loop_modes chat).getD "none"

/-- The `max_history` default of `QueueService._add_to_history`. -/
def maxHistory : Nat := 50

/-- List-level body of `QueueService._add_to_history`: `insert(0, track)` then
trim to `max_history` entries if the insertion overflowed. -/
def add_to_history (h : List Track) (t : Track) : List Track :=
  if (t :: h).length > maxHistory then (t :: h).take maxHistory else t :: h

/-- `QueueService.get_next_track`.  Faithful branch order: the empty-queue /
missing-chat guard comes first and returns `None`; then the single-loop replay
branch; otherwise pop the head, push the old current track onto the history
front, promote the head to current, and under `loop == "all"` re-append the
head to the queue tail. -/
def get_next_track (s : QueueService) (chat : Int) : Option Track × QueueService :=
  match s.queues chat with
  | none => (none, s)
  | some [] => (none, s)
  | some (next :: rest) =>
    if get_loop_mode s chat = "single" ∧ (s.current_tracks chat).isSome then
      (s.current_tracks chat, s)
    else
      let hist' : Int → Option (List Track) :=
        match s.current_tracks chat with
        | some c => upd s.history chat (add_to_history ((s.history chat).getD []) c)
        | none => s.history
      let q' : List Track :=
        if get_loop_mode s chat = "all" then rest ++ [next] else rest
      (some next,
       { s with
          queues := upd s.queues chat q'
          current_tracks := upd s.current_tracks chat next
          history := hist' })

/-- `QueueService.get_current_track`: `self.current_tracks.get(chat_id)`. -/
def get_current_track (s : QueueService) (chat : Int) : Option Track :=
  s.current_tracks chat

/-- `QueueService.get_history`: `self.history.get(chat_id, [])[:limit]`
(value view; the copy/aliasing behaviour is modelled separately below). -/
def get_history (s : QueueService) (chat : Int) (limit : Nat) : List Track :=
  ((s.history chat).getD []).take limit

/-- The track `get_previous_track` selects from a non-empty history
`h0 :: rest`: `history[1]` when `len(history) > 1`, else `history[0]`
(lines 117–120 of `queue_service.py`). -/
def prevOf (h0 : Track) : List Track → Track
  | [] => h0
  | h1 :: _ => h1

/-- `QueueService.get_previous_track`.  `None` when the chat has no history;
else `prev` is selected by `prevOf`, the current track (if any) is inserted at
the queue front, `prev` becomes current, and `prev`'s first occurrence is
removed from the history (`list.remove` guarded by `in`, a no-op when absent —
`List.erase` has exactly this first-occurrence-or-no-op semantics). -/
def get_previous_track (s : QueueService) (chat : Int) :
    Option Track × QueueService :=
  match s.history chat with
  | none => (none, s)
  | some [] => (none, s)
  | some (h0 :: rest) =>
    let prev : Track := prevOf h0 rest
    let queues' : Int → Option (List Track) :=
      match s.current_tracks chat with
      | some c => upd s.queues chat (c :: (s.queues chat).getD [])
      | none => s.queues
    (some prev,
     { s with
        queues := queues'
        current_tracks := upd s.current_tracks chat prev
        history := upd s.history chat ((h0 :: rest).erase prev) })

/-- `QueueService.set_loop_mode`: an argument outside `["none", "single", "all"]`
is replaced by `"none"`; the (possibly replaced) mode is stored and returned. -/
def set_loop_mode (s : QueueService) (chat : Int) (mode : String) :
    String × QueueService :=
  let mode' := if mode = "none" ∨ mode = "single" ∨ mode = "all" then mode else "none"
  (mode', { s with loop_modes := upd s.loop_modes chat mode' })

/-- `QueueService.toggle_loop_mode`: cycles none → single → all → none. -/
def toggle_loop_mode (s : QueueService) (chat : Int) : String × QueueService :=
  let current_mode := get_loop_mode s chat
  if current_mode = "none" then set_loop_mode s chat "single"
  else if current_mode = "single" then set_loop_mode s chat "all"
  else set_loop_mode s chat "none"

/-- `QueueService.set_shuffle_mode`.  `random.shuffle` permutes the queue in
place; the randomness is modelled by an oracle `shuffler` supplied by the
environment (any function, which over-approximates the permutations the
Python RNG can produce). -/
def set_shuffle_mode (s : QueueService) (chat : Int) (enabled : Bool)
    (shuffler : List Track → List Track) : Bool × QueueService :=
  let s1 := { s with shuffle_modes := upd s.shuffle_modes chat enabled }
  let s2 :=
    if enabled then
      match s1.queues chat with
      | some q => { s1 with queues := upd s1.queues chat (shuffler q) }
      | none => s1
    else s1
  (enabled, s2)

/-- `QueueService.get_shuffle_mode`: `self.shuffle_modes.get(chat_id, False)`. -/
def get_shuffle_mode (s : QueueService) (chat : Int) : Bool :=
  (s.shuffle_modes chat).getD false

/-- `QueueService.toggle_shuffle_mode`. -/
def toggle_shuffle_mode (s : QueueService) (chat : Int)
    (shuffler : List Track → List Track) : Bool × QueueService :=
  set_shuffle_mode s chat (!get_shuffle_mode s chat) shuffler

/-! ### Reference-level model of the queue and history dictionaries

Python lists are mutable heap objects: `get_queue` returns
`self.queues.get(chat_id, [])`, which for a present key is the *live* list
object stored in the dictionary, while `get_history` returns the slice
`history[:limit]`, which is a freshly allocated copy.  To state the snapshot
claim this object identity is made explicit: a heap of list cells addressed
by allocation order, and dictionaries mapping a chat to the *address* of its
list. -/

/-- Heap of Python list objects; the address of a cell is its index in
`cells`, and allocation appends. -/
structure ListHeap where
  cells : List (List Track)
deriving Repr

/-- Allocate a new list object, returning its address. -/
def ListHeap.alloc (H : ListHeap) (l : List Track) : Nat × ListHeap :=
  (H.cells.length, ⟨H.cells ++ [l]⟩)

/-- Dereference an address (out-of-range reads, which never occur for
addresses handed out by `alloc`, default to `[]`). -/
def ListHeap.read (H : ListHeap) (a : Nat) : List Track :=
  (H.cells[a]?).getD []

/-- Overwrite the cell at an address. -/
def ListHeap.write (H : ListHeap) (a : Nat) (l : List Track) : ListHeap :=
  ⟨H.cells.set a l⟩

/-- In-place `lst.append(t)` on the list object at address `a` — the
mutation a caller can perform on a list returned to it. -/
def ListHeap.appendAt (H : ListHeap) (a : Nat) (t : Track) : ListHeap :=
  H.write a (H.read a ++ [t])

/-- The `queues` and `history` dictionaries of a `QueueService`, at the
reference level: each chat maps to the address of its list object. -/
structure QueueServiceRef where
  heap : ListHeap
  queues : Int → Option Nat
  history : Int → Option Nat

/-- Dictionary update for address-valued dictionaries. -/
def updN (f : Int → Option Nat) (k : Int) (v : Nat) : Int → Option Nat :=
  fun k' => if k' = k then some v else f k'

/-- `QueueService.get_queue` at the reference level:
`self.queues.get(chat_id, [])` returns the live list object when the key is
present, and a fresh empty list (left unregistered) when it is absent. -/
def get_queue_ref (s : QueueServiceRef) (chat : Int) : Nat × QueueServiceRef :=
  match s.queues chat with
  | some a => (a, s)
  | none =>
    let (a, H) := s.heap.alloc []
    (a, { s with heap := H })

/-- `QueueService.get_history` at the reference level: the slice
`self.history.get(chat_id, [])[:limit]` allocates a fresh list holding a copy
of the first `limit` entries. -/
def get_history_ref (s : QueueServiceRef) (chat : Int) (limit : Nat) :
    Nat × QueueServiceRef :=
  let l : List Track :=
    match s.history chat with
    | some a => s.heap.read a
    | none => []
  let (a, H) := s.heap.alloc (l.take limit)
  (a, { s with heap := H })

/-- `QueueService.add_to_queue` at the reference level: create and register
an empty list object if the chat has none, then append to it in place. -/
def add_to_queue_ref (s : QueueServiceRef) (chat : Int) (t : Track) :
    QueueServiceRef :=
  match s.queues chat with
  | some a => { s with heap := s.heap.appendAt a t }
  | none =>
    let (a, H) := s.heap.alloc []
    { s with heap := H.appendAt a t, queues := updN s.queues chat a }

/-- `QueueService._add_to_history` at the reference level: create and
register an empty list if absent, `insert(0, track)` in place, and on
overflow rebind the dictionary entry to the freshly allocated slice
`history[:max_history]`. -/
def add_to_history_ref (s : QueueServiceRef) (chat : Int) (t : Track) :
    QueueServiceRef :=
  match s.history chat with
  | some a =>
    let l := t :: s.heap.read a
    let s1 := { s with heap := s.heap.write a l }
    if l.length > maxHistory then
      let (a2, H2) := s1.heap.alloc (l.take maxHistory)
      { s1 with heap := H2, history := updN s1.history chat a2 }
    else s1
  | none =>
    let (a, H) := s.heap.alloc [t]
    { s with heap := H, history := updN s.history chat a }

/-! ### Reachability

One step of the service: any state-mutating public method, applied to any
chat with any arguments.  The shuffling methods take the oracle `shuffler`
as an arbitrary function, over-approximating `random.shuffle`. -/

/-- A single mutating call on the service. -/
inductive Step : QueueService → QueueService → Prop where
  | add (s : QueueService) (chat : Int) (t : Track) :
      Step s (add_to_queue s chat t).2
  | addMany (s : QueueService) (chat : Int) (ts : List Track) :
      Step s (add_tracks_to_queue s chat ts).2
  | clear (s : QueueService) (chat : Int) :
      Step s (clear_queue s chat).2
  | remove (s : QueueService) (chat i : Int) :
      Step s (remove_from_queue s chat i).2
  | move (s : QueueService) (chat i j : Int) :
      Step s (move_in_queue s chat i j).2
  | next (s : QueueService) (chat : Int) :
      Step s (get_next_track s chat).2
  | back (s : QueueService) (chat : Int) :
      Step s (get_previous_track s chat).2
  | setLoop (s : QueueService) (chat : Int) (m : String) :
      Step s (set_loop_mode s chat m).2
  | toggleLoop (s : QueueService) (chat : Int) :
      Step s (toggle_loop_mode s chat).2
  | setShuffle (s : QueueService) (chat : Int) (b : Bool)
      (f : List Track → List Track) :
      Step s (set_shuffle_mode s chat b f).2
  | toggleShuffle (s : QueueService) (chat : Int)
      (f : List Track → List Track) :
      Step s (toggle_shuffle_mode s chat f).2

/-- States reachable from a freshly constructed service by mutating calls. -/
inductive Reachable : QueueService → Prop where
  | init : Reachable initService
  | step {s s' : QueueService} : Reachable s → Step s s' → Reachable s'

/-- Iterated `get_next_track` on one chat, discarding the returned tracks. -/
def advanceN (chat : Int) : Nat → QueueService → QueueService
  | 0, s => s
  | Nat.succ n, s => advanceN chat n (get_next_track s chat).2

/-! ### Concrete tracks and states used by witnesses and counterexamples -/

/-- A concrete track (id "A"). -/
def trackA : Track := ⟨"A", "Alpha", "ArtistA", "urlA", none, none, "youtube", 0⟩

/-- A concrete track (id "B"). -/
def trackB : Track := ⟨"B", "Beta", "ArtistB", "urlB", none, none, "youtube", 0⟩

/-- A concrete track (id "C"). -/
def trackC : Track := ⟨"C", "Gamma", "ArtistC", "urlC", none, none, "youtube", 0⟩

/-! ### Unfolding lemmas -/

theorem upd_same {α : Type} (f : Int → Option α) (k : Int) (v : α) :
    upd f k v k = some v := by
  simp [upd]

theorem upd_ne {α : Type} (f : Int → Option α) (k k' : Int) (v : α)
    (h : k' ≠ k) : upd f k v k' = f k' := by
  simp [upd, h]

theorem get_next_track_of_absent (s : QueueService) (chat : Int)
    (hq : s.queues chat = none) : get_next_track s chat = (none, s) := by
  unfold get_next_track; rw [hq]

theorem get_next_track_of_nil (s : QueueService) (chat : Int)
    (hq : s.queues chat = some []) : get_next_track s chat = (none, s) := by
  unfold get_next_track; rw [hq]

theorem get_next_track_of_cons (s : QueueService) (chat : Int)
    (next : Track) (rest : List Track) (hq : s.queues chat = some (next :: rest)) :
    get_next_track s chat =
      if get_loop_mode s chat = "single" ∧ (s.current_tracks chat).isSome then
        (s.current_tracks chat, s)
      else
        (some next,
         { s with
            queues := upd s.queues chat
              (if get_loop_mode s chat = "all" then rest ++ [next] else rest)
            current_tracks := upd s.current_tracks chat next
            history :=
              match s.current_tracks chat with
              | some c => upd s.history chat (add_to_history ((s.history chat).getD []) c)
              | none => s.history }) := by
  unfold get_next_track; rw [hq]

theorem get_previous_track_of_absent (s : QueueService) (chat : Int)
    (hh : s.history chat = none) : get_previous_track s chat = (none, s) := by
  unfold get_previous_track; rw [hh]

theorem get_previous_track_of_nil (s : QueueService) (chat : Int)
    (hh : s.history chat = some []) : get_previous_track s chat = (none, s) := by
  unfold get_previous_track; rw [hh]

theorem get_previous_track_of_cons (s : QueueService) (chat : Int)
    (h0 : Track) (rest : List Track) (hh : s.history chat = some (h0 :: rest)) :
    get_previous_track s chat =
      (some (prevOf h0 rest),
       { s with
          queues :=
            match s.current_tracks chat with
            | some c => upd s.queues chat (c :: (s.queues chat).getD [])
            | none => s.queues
          current_tracks := upd s.current_tracks chat (prevOf h0 rest)
          history := upd s.history chat ((h0 :: rest).erase (prevOf h0 rest)) }) := by
  unfold get_previous_track; rw [hh]

theorem remove_from_queue_of_some (s : QueueService) (chat index : Int)
    (q : List Track) (hq : s.queues chat = some q) :
    remove_from_queue s chat index =
      if (q.length : Int) ≤ index ∨ index < 0 then (none, s)
      else
        (q[index.toNat]?,
         { s with
            queues := upd s.queues chat (q.take index.toNat ++ q.drop (index.toNat + 1)) }) := by
  unfold remove_from_queue; rw [hq]

/-! ### Claim C1 -/

/-- C1 (amended): with `loopMode = single`, a non-empty `current` holding `T`,
and a **non-empty** pending queue, `get_next_track` returns `T` and leaves the
whole service state (pending, history, current, modes) unchanged.  The claim's
"regardless of whether pending is empty" is refuted by the code's empty-queue
guard, which fires first and returns `None`. -/
theorem c1_single_loop_replay (s : QueueService) (chat : Int) (T : Track)
    (q : List Track) (hl : get_loop_mode s chat = "single")
    (hc : s.current_tracks chat = some T)
    (hq : s.queues chat = some q) (hne : q ≠ []) :
    get_next_track s chat = (some T, s) := by
  cases q with
  | nil => exact absurd rfl hne
  | cons a rest =>
    rw [get_next_track_of_cons s chat a rest hq, if_pos ⟨hl, by rw [hc]; rfl⟩, hc]

/-- State for the C1 witness: loop mode `single`, current `trackA`,
pending `[trackB]`. -/
def c1s : QueueService :=
  { initService with
      queues := upd initService.queues 1 [trackB]
      current_tracks := upd initService.current_tracks 1 trackA
      loop_modes := upd initService.loop_modes 1 "single" }

/-- C1 witness: the amended claim at a concrete state. -/
theorem c1_single_loop_replay_witness :
    get_loop_mode c1s 1 = "single" ∧ c1s.current_tracks 1 = some trackA ∧
    c1s.queues 1 = some [trackB] ∧ [trackB] ≠ ([] : List Track) ∧
    get_next_track c1s 1 = (some trackA, c1s) :=
  ⟨by decide, by decide, by decide, by decide,
   c1_single_loop_replay c1s 1 trackA [trackB] (by decide) (by decide) (by decide)
     (by decide)⟩

/-- State refuting C1 as stated: loop mode `single`, current `trackA`, but the
chat has no pending queue. -/
def c1bad : QueueService :=
  { initService with
      current_tracks := upd initService.current_tracks 1 trackA
      loop_modes := upd initService.loop_modes 1 "single" }

/-- C1 counterexample: in single-loop mode with current `trackA` and an empty
pending queue, `get_next_track` returns `none`, not the current track: the
empty-queue guard on line 64 of `queue_service.py` precedes the single-loop
branch. -/
theorem c1_counterexample :
    get_loop_mode c1bad 1 = "single" ∧ c1bad.current_tracks 1 = some trackA ∧
    c1bad.queues 1 = none ∧ (get_next_track c1bad 1).1 ≠ some trackA := by
  decide

/-! ### Claim C2 -/

/-- C2 (amended): when the pending queue is empty (or the chat has no queue
entry), `get_next_track` returns `none` and leaves the *entire* state
unchanged — in particular `current` is **not** cleared, so a Playing session
stays Playing; the claim's "clears current to empty" does not hold. -/
theorem c2_advance_empty_queue (s : QueueService) (chat : Int)
    (hmode : get_loop_mode s chat ≠ "single" ∨ s.current_tracks chat = none)
    (hq : s.queues chat = none ∨ s.queues chat = some []) :
    get_next_track s chat = (none, s) := by
  rcases hq with h | h
  · exact get_next_track_of_absent s chat h
  · exact get_next_track_of_nil s chat h

/-- C2 witness: the amended claim at a fresh service. -/
theorem c2_advance_empty_queue_witness :
    (get_loop_mode initService 1 ≠ "single" ∨ initService.current_tracks 1 = none) ∧
    (initService.queues 1 = none ∨ initService.queues 1 = some []) ∧
    get_next_track initService 1 = (none, initService) :=
  ⟨Or.inl (by decide), Or.inl (by decide),
   c2_advance_empty_queue initService 1 (Or.inl (by decide)) (Or.inl rfl)⟩

/-- State refuting C2 as stated: loop mode `none`, current `trackA`, pending
present but empty. -/
def c2bad : QueueService :=
  { initService with
      queues := upd initService.queues 1 []
      current_tracks := upd initService.current_tracks 1 trackA }

/-- C2 counterexample: advancing on an empty queue returns `none` but does NOT
clear `current` — the early return on line 65 of `queue_service.py` mutates
nothing, so the session does not move Playing→Idle as claimed. -/
theorem c2_counterexample :
    get_loop_mode c2bad 1 ≠ "single" ∧ c2bad.queues 1 = some [] ∧
    c2bad.current_tracks 1 = some trackA ∧
    (get_next_track c2bad 1).1 = none ∧
    (get_next_track c2bad 1).2.current_tracks 1 ≠ none := by
  decide

/-! ### Claim C4 -/

/-- A fresh session with tracks A then B enqueued. -/
def c4s : QueueService :=
  (add_to_queue (add_to_queue initService 1 trackA).2 1 trackB).2

/-- C4: on a fresh session (loop mode `none`) with tracks A, B enqueued, the
call sequence advance, advance, previous, advance returns A, B, A, B. -/
theorem c4_round_trip :
    (get_next_track c4s 1).1 = some trackA ∧
    (get_next_track (get_next_track c4s 1).2 1).1 = some trackB ∧
    (get_previous_track (get_next_track (get_next_track c4s 1).2 1).2 1).1 =
      some trackA ∧
    (get_next_track
        (get_previous_track (get_next_track (get_next_track c4s 1).2 1).2 1).2
        1).1 = some trackB := by
  decide

/-! ### Claim C6 -/

/-- C6 (amended): an argument outside `{none, single, all}` is not rejected:
`set_loop_mode` silently replaces it by `"none"`, stores `"none"` for the chat
(overwriting any previous mode), and returns `"none"`; all other fields are
unchanged. -/
theorem c6_invalid_loop_mode (s : QueueService) (chat : Int) (mode : String)
    (h1 : mode ≠ "none") (h2 : mode ≠ "single") (h3 : mode ≠ "all") :
    set_loop_mode s chat mode =
      ("none", { s with loop_modes := upd s.loop_modes chat "none" }) := by
  unfold set_loop_mode
  rw [if_neg]
  intro h
  rcases h with h | h | h
  · exact h1 h
  · exact h2 h
  · exact h3 h

/-- C6 witness: the amended claim at a concrete invalid input. -/
theorem c6_invalid_loop_mode_witness :
    ("bogus" ≠ "none" ∧ "bogus" ≠ "single" ∧ "bogus" ≠ "all") ∧
    set_loop_mode initService 1 "bogus" =
      ("none", { initService with loop_modes := upd initService.loop_modes 1 "none" }) :=
  ⟨⟨by decide, by decide, by decide⟩,
   c6_invalid_loop_mode initService 1 "bogus" (by decide) (by decide) (by decide)⟩

/-- A service whose chat-1 loop mode is `single`. -/
def c6s : QueueService := (set_loop_mode initService 1 "single").2

/-- C6 counterexample: passing the unrecognized mode "bogus" does not leave the
state unchanged — the stored loop mode changes from "single" to "none"
(lines 140–143 of `queue_service.py` coerce instead of rejecting). -/
theorem c6_counterexample :
    get_loop_mode c6s 1 = "single" ∧
    get_loop_mode (set_loop_mode c6s 1 "bogus").2 1 = "none" ∧
    get_loop_mode (set_loop_mode c6s 1 "bogus").2 1 ≠ get_loop_mode c6s 1 := by
  decide

/-! ### Claim C3 -/

/-- C3 (amended): on empty history `get_previous_track` returns `none` with no
mutation.  On non-empty history `h0 :: rest` the returned track is
`prevOf h0 rest` — i.e. `history[1]` when the history has at least two entries
and `history[0]` only when it is the sole entry (the claim's
"prev = history[0]" holds only in the singleton case) — the current track (if
any) is pushed onto the front of pending, `prev` becomes current, and `prev`'s
first occurrence is removed from history; loop and shuffle modes are
untouched. -/
theorem c3_previous_track (s : QueueService) (chat : Int) :
    (s.history chat = none ∨ s.history chat = some [] →
      get_previous_track s chat = (none, s)) ∧
    (∀ h0 rest, s.history chat = some (h0 :: rest) →
      (get_previous_track s chat).1 = some (prevOf h0 rest) ∧
      (get_previous_track s chat).2.current_tracks chat = some (prevOf h0 rest) ∧
      (get_previous_track s chat).2.history chat =
        some ((h0 :: rest).erase (prevOf h0 rest)) ∧
      (∀ c, s.current_tracks chat = some c →
        (get_previous_track s chat).2.queues chat =
          some (c :: (s.queues chat).getD [])) ∧
      (s.current_tracks chat = none →
        (get_previous_track s chat).2.queues chat = s.queues chat) ∧
      (get_previous_track s chat).2.loop_modes = s.loop_modes ∧
      (get_previous_track s chat).2.shuffle_modes = s.shuffle_modes) := by
  constructor
  · rintro (h | h)
    · exact get_previous_track_of_absent s chat h
    · exact get_previous_track_of_nil s chat h
  · intro h0 rest hh
    rw [get_previous_track_of_cons s chat h0 rest hh]
    refine ⟨rfl, upd_same _ _ _, upd_same _ _ _, ?_, ?_, rfl, rfl⟩
    · intro c hc
      simp only [hc]
      exact upd_same _ _ _
    · intro hc
      simp only [hc]

/-- State for C3: history `[trackA, trackB]`, current `trackC`. -/
def c3s : QueueService :=
  { initService with
      history := upd initService.history 1 [trackA, trackB]
      current_tracks := upd initService.current_tracks 1 trackC }

/-- C3 witness: the amended claim exercised at a concrete two-entry history
(`[trackA, trackB]`, current `trackC`): `previous` returns `trackB`
(= `history[1]`), pushes `trackC` onto the pending front, and erases `trackB`
from the history. -/
theorem c3_previous_track_witness :
    c3s.history 1 = some [trackA, trackB] ∧ c3s.current_tracks 1 = some trackC ∧
    (get_previous_track c3s 1).1 = some (prevOf trackA [trackB]) ∧
    (get_previous_track c3s 1).2.queues 1 = some (trackC :: (c3s.queues 1).getD []) :=
  ⟨by decide, by decide,
   ((c3_previous_track c3s 1).2 trackA [trackB] (by decide)).1,
   ((c3_previous_track c3s 1).2 trackA [trackB] (by decide)).2.2.2.1 trackC (by decide)⟩

/-- C3 counterexample: with history `[trackA, trackB]` (most recent first) and
current `trackC`, the claim demands `previous` return `history[0] = trackA`,
but the code (line 118 of `queue_service.py`) returns `history[1] = trackB`. -/
theorem c3_counterexample :
    c3s.history 1 = some [trackA, trackB] ∧ c3s.current_tracks 1 = some trackC ∧
    (get_previous_track c3s 1).1 = some trackB ∧
    (get_previous_track c3s 1).1 ≠ some trackA := by
  decide

/-! ### Claim C8 -/

/-- C8 (amended): when history is exactly `[T]` and current is `T`,
`get_previous_track` still returns `T` (no failure), empties the history, and
pushes the current `T` onto the front of pending — so the number of
occurrences of `T` in pending grows by exactly one; `T` occurs at most once
afterwards only if it was not already pending (the claim's unconditional
"not more than once" fails when `T` was already in pending). -/
theorem c8_degenerate_previous (s : QueueService) (chat : Int) (T : Track)
    (hh : s.history chat = some [T]) (hc : s.current_tracks chat = some T) :
    (get_previous_track s chat).1 = some T ∧
    (get_previous_track s chat).2.queues chat = some (T :: (s.queues chat).getD []) ∧
    (((get_previous_track s chat).2.queues chat).getD []).count T =
      ((s.queues chat).getD []).count T + 1 ∧
    (T ∉ (s.queues chat).getD [] →
      (((get_previous_track s chat).2.queues chat).getD []).count T = 1) ∧
    (get_previous_track s chat).2.history chat = some [] := by
  rw [get_previous_track_of_cons s chat T [] hh]
  simp only [prevOf, hc]
  refine ⟨trivial, upd_same _ _ _, ?_, ?_, ?_⟩
  · rw [upd_same]
    simp
  · intro hmem
    rw [upd_same]
    simp only [Option.getD_some, List.count_cons_self]
    rw [List.count_eq_zero.mpr hmem]
  · simp [List.erase_cons_head, upd_same]

/-- The degenerate state for C8, reached by enqueueing `trackA` three times and
advancing twice: pending `[trackA]`, current `trackA`, history `[trackA]`. -/
def c8s : QueueService :=
  (get_next_track
    (get_next_track
      (add_to_queue (add_to_queue (add_to_queue initService 1 trackA).2 1 trackA).2
        1 trackA).2 1).2 1).2

/-- C8 witness: the amended claim at the reachable degenerate state `c8s`. -/
theorem c8_degenerate_previous_witness :
    c8s.history 1 = some [trackA] ∧ c8s.current_tracks 1 = some trackA ∧
    (get_previous_track c8s 1).1 = some trackA ∧
    (get_previous_track c8s 1).2.history 1 = some [] :=
  ⟨by decide, by decide,
   (c8_degenerate_previous c8s 1 trackA (by decide) (by decide)).1,
   (c8_degenerate_previous c8s 1 trackA (by decide) (by decide)).2.2.2.2⟩

/-- C8 counterexample: in the reachable state `c8s` (history `[trackA]` equal
to current, pending `[trackA]`), `previous` pushes the current track onto the
pending front and `trackA` then occurs twice in pending, violating the claim's
"does not occur more than once". -/
theorem c8_counterexample :
    c8s.history 1 = some [trackA] ∧ c8s.current_tracks 1 = some trackA ∧
    c8s.queues 1 = some [trackA] ∧
    (((get_previous_track c8s 1).2.queues 1).getD []).count trackA = 2 := by
  decide

/-! ### Claim C10 -/

/-- C10: `remove_from_queue` returns `none` and leaves the whole state
unchanged when the chat has no queue or the index is out of range (negative or
at least the queue length); for an in-range index it returns exactly the track
at that index and removes only that element, leaving the rest in their
original relative order (prefix before the index, suffix after it) and all
other state untouched. -/
theorem c10_remove_from_queue (s : QueueService) (chat index : Int) :
    (s.queues chat = none → remove_from_queue s chat index = (none, s)) ∧
    (∀ q, s.queues chat = some q → index < 0 ∨ (q.length : Int) ≤ index →
      remove_from_queue s chat index = (none, s)) ∧
    (∀ q, s.queues chat = some q → 0 ≤ index → index < (q.length : Int) →
      (remove_from_queue s chat index).1 = q[index.toNat]? ∧
      (remove_from_queue s chat index).2 =
        { s with
           queues := upd s.queues chat
             (q.take index.toNat ++ q.drop (index.toNat + 1)) }) := by
  refine ⟨?_, ?_, ?_⟩
  · intro h
    unfold remove_from_queue
    rw [h]
  · intro q hq hrange
    rw [remove_from_queue_of_some s chat index q hq, if_pos hrange.symm]
  · intro q hq h0 hlt
    rw [remove_from_queue_of_some s chat index q hq, if_neg (by omega)]
    exact ⟨rfl, rfl⟩

/-- A three-track queue for the C10 witness. -/
def c10s : QueueService :=
  { initService with queues := upd initService.queues 1 [trackA, trackB, trackC] }

/-- C10 witness: removing index 1 from `[trackA, trackB, trackC]` returns
`trackB` and leaves `[trackA, trackC]`; index 5 and a chat with no queue
return `none` unchanged. -/
theorem c10_remove_from_queue_witness :
    c10s.queues 1 = some [trackA, trackB, trackC] ∧
    (remove_from_queue c10s 1 1).1 = [trackA, trackB, trackC][(1 : Int).toNat]? ∧
    remove_from_queue c10s 1 5 = (none, c10s) ∧
    c10s.queues 2 = none ∧
    remove_from_queue c10s 2 0 = (none, c10s) :=
  ⟨by decide,
   ((c10_remove_from_queue c10s 1 1).2.2 [trackA, trackB, trackC] (by decide)
     (by decide) (by decide)).1,
   (c10_remove_from_queue c10s 1 5).2.1 [trackA, trackB, trackC] (by decide)
     (Or.inr (by decide)),
   by decide,
   (c10_remove_from_queue c10s 2 0).1 (by decide)⟩

/-! ### Claim C5 -/

theorem get_next_track_all_rotate (s : QueueService) (chat : Int)
    (q : List Track) (hq : s.queues chat = some q) (hne : q ≠ [])
    (hl : get_loop_mode s chat = "all") :
    (get_next_track s chat).1 = q.head? ∧
    (get_next_track s chat).2.queues chat = some (q.rotate 1) ∧
    (get_next_track s chat).2.loop_modes = s.loop_modes := by
  cases q with
  | nil => exact absurd rfl hne
  | cons a rest =>
    rw [get_next_track_of_cons s chat a rest hq]
    rw [if_neg (by rw [hl]; simp)]
    refine ⟨rfl, ?_, rfl⟩
    rw [hl]
    have hrot : (a :: rest).rotate 1 = rest ++ [a] := by
      rw [show (1 : Nat) = 0 + 1 from rfl, List.rotate_cons_succ, List.rotate_zero]
    rw [hrot, if_pos rfl]
    exact upd_same _ _ _

theorem advanceN_all_rotate (chat : Int) (k : Nat) :
    ∀ (s : QueueService) (q : List Track), s.queues chat = some q → q ≠ [] →
      get_loop_mode s chat = "all" →
      (advanceN chat k s).queues chat = some (q.rotate k) ∧
      get_loop_mode (advanceN chat k s) chat = "all" := by
  induction k with
  | zero =>
    intro s q hq hne hl
    rw [advanceN, List.rotate_zero]
    exact ⟨hq, hl⟩
  | succ n ih =>
    intro s q hq hne hl
    have hstep := get_next_track_all_rotate s chat q hq hne hl
    have hl' : get_loop_mode (get_next_track s chat).2 chat = "all" := by
      unfold get_loop_mode
      rw [hstep.2.2]
      exact hl
    have hne' : q.rotate 1 ≠ [] := by
      intro h
      apply hne
      have := congrArg List.length h
      rw [List.length_rotate] at this
      exact List.eq_nil_of_length_eq_zero this
    have hrec := ih (get_next_track s chat).2 (q.rotate 1) hstep.2.1 hne' hl'
    rw [advanceN]
    refine ⟨?_, hrec.2⟩
    rw [hrec.1, List.rotate_rotate, Nat.add_comm]

/-- C5: with loop mode `all`, no current track, and a pending queue `q` of
`N ≥ 1` tracks, after `N` calls to `get_next_track` the chat's pending queue
holds the same `N` tracks in the same order again, and the `(N+1)`-th call
returns the same track as the 1st call. -/
theorem c5_loop_all_cycle (s : QueueService) (chat : Int) (q : List Track)
    (N : Nat) (hq : s.queues chat = some q) (hN : q.length = N) (hpos : 1 ≤ N)
    (hl : get_loop_mode s chat = "all") (hcur : s.current_tracks chat = none) :
    (advanceN chat N s).queues chat = some q ∧
    (get_next_track (advanceN chat N s) chat).1 = (get_next_track s chat).1 := by
  have hne : q ≠ [] := by
    intro h
    rw [h] at hN
    simp at hN
    omega
  have hrot : q.rotate N = q := by
    rw [← hN]
    exact List.rotate_length q
  have h1 := advanceN_all_rotate chat N s q hq hne hl
  rw [hrot] at h1
  refine ⟨h1.1, ?_⟩
  have ha := get_next_track_all_rotate (advanceN chat N s) chat q h1.1 hne h1.2
  have hb := get_next_track_all_rotate s chat q hq hne hl
  rw [ha.1, hb.1]

/-- State for the C5 witness: pending `[trackA, trackB]`, loop mode `all`. -/
def c5s : QueueService :=
  { initService with
      queues := upd initService.queues 1 [trackA, trackB]
      loop_modes := upd initService.loop_modes 1 "all" }

/-- C5 witness: the two-track all-loop cycle at a concrete state. -/
theorem c5_loop_all_cycle_witness :
    c5s.queues 1 = some [trackA, trackB] ∧ get_loop_mode c5s 1 = "all" ∧
    c5s.current_tracks 1 = none ∧
    ((advanceN 1 2 c5s).queues 1 = some [trackA, trackB] ∧
      (get_next_track (advanceN 1 2 c5s) 1).1 = (get_next_track c5s 1).1) :=
  ⟨by decide, by decide, by decide,
   c5_loop_all_cycle c5s 1 [trackA, trackB] 2 (by decide) (by decide) (by decide)
     (by decide) (by decide)⟩

/-! ### Claim C7 -/

/-- Every history list stored in the service has at most `maxHistory`
entries. -/
def HistOk (s : QueueService) : Prop :=
  ∀ chat l, s.history chat = some l → l.length ≤ maxHistory

theorem histOk_of_history_eq {s s' : QueueService} (h : HistOk s)
    (he : s'.history = s.history) : HistOk s' :=
  fun chat l hl => h chat l (he ▸ hl)

theorem add_to_history_eq_take (h : List Track) (t : Track) :
    add_to_history h t = (t :: h).take maxHistory := by
  unfold add_to_history
  split
  · rfl
  · next hle => exact (List.take_of_length_le (by omega)).symm

theorem add_to_history_length_le (h : List Track) (t : Track) :
    (add_to_history h t).length ≤ maxHistory := by
  rw [add_to_history_eq_take, List.length_take]
  omega

theorem history_add_to_queue (s : QueueService) (chat : Int) (t : Track) :
    (add_to_queue s chat t).2.history = s.history := rfl

theorem history_add_tracks (s : QueueService) (chat : Int) (ts : List Track) :
    (add_tracks_to_queue s chat ts).2.history = s.history := rfl

theorem history_clear_queue (s : QueueService) (chat : Int) :
    (clear_queue s chat).2.history = s.history := rfl

theorem history_remove_from_queue (s : QueueService) (chat i : Int) :
    (remove_from_queue s chat i).2.history = s.history := by
  unfold remove_from_queue
  split
  · rfl
  · split <;> rfl

theorem history_move_in_queue (s : QueueService) (chat i j : Int) :
    (move_in_queue s chat i j).2.history = s.history := by
  unfold move_in_queue
  split
  · rfl
  · split
    · rfl
    · split <;> rfl

theorem history_set_loop_mode (s : QueueService) (chat : Int) (m : String) :
    (set_loop_mode s chat m).2.history = s.history := rfl

theorem history_toggle_loop_mode (s : QueueService) (chat : Int) :
    (toggle_loop_mode s chat).2.history = s.history := by
  unfold toggle_loop_mode
  dsimp only
  split
  · rfl
  · split <;> rfl

theorem history_set_shuffle_mode (s : QueueService) (chat : Int) (b : Bool)
    (f : List Track → List Track) :
    (set_shuffle_mode s chat b f).2.history = s.history := by
  unfold set_shuffle_mode
  dsimp only
  split
  · split <;> rfl
  · rfl

theorem history_toggle_shuffle_mode (s : QueueService) (chat : Int)
    (f : List Track → List Track) :
    (toggle_shuffle_mode s chat f).2.history = s.history :=
  history_set_shuffle_mode s chat _ f

theorem histOk_get_next_track (s : QueueService) (chat : Int) (h : HistOk s) :
    HistOk (get_next_track s chat).2 := by
  cases hq : s.queues chat with
  | none => exact histOk_of_history_eq h (by rw [get_next_track_of_absent s chat hq])
  | some q =>
    cases q with
    | nil => exact histOk_of_history_eq h (by rw [get_next_track_of_nil s chat hq])
    | cons a rest =>
      rw [get_next_track_of_cons s chat a rest hq]
      split
      · exact h
      · cases hc : s.current_tracks chat with
        | none =>
          exact histOk_of_history_eq h (by simp only [hc])
        | some c =>
          simp only [hc]
          intro chat' l hl
          dsimp only at hl
          by_cases hch : chat' = chat
          · subst hch
            rw [upd_same] at hl
            have hl' := Option.some.inj hl
            subst hl'
            exact add_to_history_length_le ((s.history chat').getD []) c
          · rw [upd_ne _ _ _ _ hch] at hl
            exact h chat' l hl

theorem histOk_get_previous_track (s : QueueService) (chat : Int) (h : HistOk s) :
    HistOk (get_previous_track s chat).2 := by
  cases hh : s.history chat with
  | none => exact histOk_of_history_eq h (by rw [get_previous_track_of_absent s chat hh])
  | some q =>
    cases q with
    | nil => exact histOk_of_history_eq h (by rw [get_previous_track_of_nil s chat hh])
    | cons h0 rest =>
      rw [get_previous_track_of_cons s chat h0 rest hh]
      intro chat' l hl
      dsimp only at hl
      by_cases hch : chat' = chat
      · subst hch
        rw [upd_same] at hl
        have hl' := Option.some.inj hl
        subst hl'
        have h1 : (h0 :: rest).length ≤ maxHistory := h chat' (h0 :: rest) hh
        have h2 := List.Sublist.length_le (List.erase_sublist (prevOf h0 rest) (h0 :: rest))
        omega
      · rw [upd_ne _ _ _ _ hch] at hl
        exact h chat' l hl

theorem step_histOk {s s' : QueueService} (h : HistOk s) (hs : Step s s') :
    HistOk s' := by
  cases hs with
  | add chat t => exact histOk_of_history_eq h (history_add_to_queue s chat t)
  | addMany chat ts => exact histOk_of_history_eq h (history_add_tracks s chat ts)
  | clear chat => exact histOk_of_history_eq h (history_clear_queue s chat)
  | remove chat i => exact histOk_of_history_eq h (history_remove_from_queue s chat i)
  | move chat i j => exact histOk_of_history_eq h (history_move_in_queue s chat i j)
  | next chat => exact histOk_get_next_track s chat h
  | back chat => exact histOk_get_previous_track s chat h
  | setLoop chat m => exact histOk_of_history_eq h (history_set_loop_mode s chat m)
  | toggleLoop chat => exact histOk_of_history_eq h (history_toggle_loop_mode s chat)
  | setShuffle chat b f =>
    exact histOk_of_history_eq h (history_set_shuffle_mode s chat b f)
  | toggleShuffle chat f =>
    exact histOk_of_history_eq h (history_toggle_shuffle_mode s chat f)

theorem reachable_histOk {s : QueueService} (h : Reachable s) : HistOk s := by
  induction h with
  | init => intro chat l hl; cases hl
  | step _ hs ih => exact step_histOk ih hs

/-- C7: in every reachable service state the history of every chat has at most
`maxHistory = 50` entries; a history snapshot with any limit (in particular
1000) therefore returns at most 50 entries; and every insertion into a history
is `add_to_history`, which always places the new track at the front and trims
to the newest 50 — so the history is ordered most-recent-first. -/
theorem c7_history_bounded (s : QueueService) (chat : Int) (l : List Track)
    (limit : Nat) (t : Track) (hs : Reachable s) (hl : s.history chat = some l) :
    l.length ≤ maxHistory ∧ (get_history s chat limit).length ≤ maxHistory ∧
    add_to_history l t = (t :: l).take maxHistory := by
  have hb := reachable_histOk hs chat l hl
  refine ⟨hb, ?_, add_to_history_eq_take l t⟩
  unfold get_history
  rw [hl]
  simp [List.length_take]
  omega

/-- C7 witness states: enqueue `trackA`, advance, enqueue `trackB`, advance;
the second advance pushes `trackA` into the chat's history. -/
def c7s1 : QueueService := (add_to_queue initService 1 trackA).2

def c7s2 : QueueService := (get_next_track c7s1 1).2

def c7s3 : QueueService := (add_to_queue c7s2 1 trackB).2

def c7s4 : QueueService := (get_next_track c7s3 1).2

theorem c7s4_reachable : Reachable c7s4 :=
  Reachable.step
    (Reachable.step
      (Reachable.step (Reachable.step Reachable.init (Step.add initService 1 trackA))
        (Step.next c7s1 1))
      (Step.add c7s2 1 trackB))
    (Step.next c7s3 1)

/-- C7 witness: the bound at the concrete reachable state `c7s4`, whose chat-1
history is `[trackA]`, with snapshot limit 1000. -/
theorem c7_history_bounded_witness :
    c7s4.history 1 = some [trackA] ∧
    ([trackA].length ≤ maxHistory ∧
      (get_history c7s4 1 1000).length ≤ maxHistory ∧
      add_to_history [trackA] trackB = (trackB :: [trackA]).take maxHistory) :=
  ⟨by decide, c7_history_bounded c7s4 1 [trackA] 1000 trackB c7s4_reachable (by decide)⟩

/-! ### Claim C9 -/

theorem ListHeap.read_write_self (H : ListHeap) (a : Nat) (l : List Track)
    (ha : a < H.cells.length) : (H.write a l).read a = l := by
  unfold ListHeap.read ListHeap.write
  simp [List.getElem?_set_self, ha]

theorem ListHeap.read_write_ne (H : ListHeap) (a b : Nat) (l : List Track)
    (hne : b ≠ a) : (H.write a l).read b = H.read b := by
  unfold ListHeap.read ListHeap.write
  simp [List.getElem?_set_ne, hne.symm]

theorem ListHeap.read_alloc_fresh (H : ListHeap) (l : List Track) :
    (H.alloc l).2.read (H.alloc l).1 = l := by
  unfold ListHeap.read ListHeap.alloc
  simp

theorem ListHeap.read_alloc_old (H : ListHeap) (l : List Track) (a : Nat)
    (ha : a < H.cells.length) : (H.alloc l).2.read a = H.read a := by
  unfold ListHeap.read ListHeap.alloc
  simp [List.getElem?_append_left, ha]

theorem ListHeap.alloc_fst (H : ListHeap) (l : List Track) :
    (H.alloc l).1 = H.cells.length := rfl

/-- C9 (amended): `get_history` (historySnapshot) is a defensive copy, but
`get_queue` (peekQueue) is not.  For a chat whose queue dictionary holds the
list object at address `qa`, `get_queue` returns that live address with no
state change, so a caller appending to the returned list changes the session's
pending queue.  `get_history` allocates a fresh cell (distinct from every
existing address) holding a copy of the first `limit` history entries; a
caller appending to the snapshot leaves the session history unchanged, and a
subsequent session mutation (`add_to_queue`) leaves the snapshot unchanged. -/
theorem c9_snapshot_copy_semantics (s : QueueServiceRef) (chat : Int)
    (limit : Nat) (qa ha : Nat) (t : Track)
    (hq : s.queues chat = some qa) (hh : s.history chat = some ha)
    (hqa : qa < s.heap.cells.length) (hha : ha < s.heap.cells.length) :
    (get_queue_ref s chat).1 = qa ∧
    (get_queue_ref s chat).2 = s ∧
    ((get_queue_ref s chat).2.heap.appendAt (get_queue_ref s chat).1 t).read qa =
      s.heap.read qa ++ [t] ∧
    (get_history_ref s chat limit).1 ≠ ha ∧
    (get_history_ref s chat limit).1 ≠ qa ∧
    (get_history_ref s chat limit).2.heap.read (get_history_ref s chat limit).1 =
      (s.heap.read ha).take limit ∧
    ((get_history_ref s chat limit).2.heap.appendAt
        (get_history_ref s chat limit).1 t).read ha = s.heap.read ha ∧
    (add_to_queue_ref (get_history_ref s chat limit).2 chat t).heap.read
        (get_history_ref s chat limit).1 = (s.heap.read ha).take limit := by
  have hget : get_queue_ref s chat = (qa, s) := by
    unfold get_queue_ref
    rw [hq]
  have hhist : get_history_ref s chat limit =
      ((s.heap.read ha).take limit |> s.heap.alloc |>.1,
       { s with heap := ((s.heap.read ha).take limit |> s.heap.alloc |>.2) }) := by
    unfold get_history_ref
    rw [hh]
  have hfst : (get_history_ref s chat limit).1 = s.heap.cells.length := by
    rw [hhist]
    rfl
  refine ⟨by rw [hget], by rw [hget], ?_, ?_, ?_, ?_, ?_, ?_⟩
  · rw [hget]
    unfold ListHeap.appendAt
    exact ListHeap.read_write_self s.heap qa (s.heap.read qa ++ [t]) hqa
  · rw [hfst]
    omega
  · rw [hfst]
    omega
  · rw [hhist]
    exact ListHeap.read_alloc_fresh s.heap ((s.heap.read ha).take limit)
  · rw [hhist]
    unfold ListHeap.appendAt
    rw [ListHeap.read_write_ne _ _ ha _ (by rw [ListHeap.alloc_fst]; omega)]
    exact ListHeap.read_alloc_old s.heap _ ha hha
  · rw [hhist]
    unfold add_to_queue_ref
    dsimp only
    rw [hq]
    unfold ListHeap.appendAt
    rw [ListHeap.read_write_ne _ _ _ _ (by rw [ListHeap.alloc_fst]; omega)]
    exact ListHeap.read_alloc_fresh s.heap ((s.heap.read ha).take limit)

/-- Reference-level state for the C9 witness and counterexample: chat 1's
pending queue is the list object `[trackA]` at address 0 and its history is
the list object `[trackB]` at address 1. -/
def c9ref : QueueServiceRef :=
  ⟨⟨[[trackA], [trackB]]⟩,
   fun k => if k = 1 then some 0 else none,
   fun k => if k = 1 then some 1 else none⟩

/-- C9 witness: the amended snapshot semantics at the concrete state `c9ref`. -/
theorem c9_snapshot_copy_semantics_witness :
    c9ref.queues 1 = some 0 ∧ c9ref.history 1 = some 1 ∧
    ((get_queue_ref c9ref 1).1 = 0 ∧
      (get_queue_ref c9ref 1).2 = c9ref ∧
      ((get_queue_ref c9ref 1).2.heap.appendAt (get_queue_ref c9ref 1).1 trackC).read 0 =
        c9ref.heap.read 0 ++ [trackC] ∧
      (get_history_ref c9ref 1 10).1 ≠ 1 ∧
      (get_history_ref c9ref 1 10).1 ≠ 0 ∧
      (get_history_ref c9ref 1 10).2.heap.read (get_history_ref c9ref 1 10).1 =
        (c9ref.heap.read 1).take 10 ∧
      ((get_history_ref c9ref 1 10).2.heap.appendAt
          (get_history_ref c9ref 1 10).1 trackC).read 1 = c9ref.heap.read 1 ∧
      (add_to_queue_ref (get_history_ref c9ref 1 10).2 1 trackC).heap.read
          (get_history_ref c9ref 1 10).1 = (c9ref.heap.read 1).take 10) :=
  ⟨by decide, by decide,
   c9_snapshot_copy_semantics c9ref 1 10 0 1 trackC (by decide) (by decide)
     (by decide) (by decide)⟩

/-- C9 counterexample: `get_queue` does not return a defensive copy.  At
`c9ref` the session's pending queue for chat 1 is the cell `[trackA]` at
address 0; `get_queue` returns that very address, and after the caller appends
`trackB` to the returned list the session's pending queue reads `[trackA,
trackB]` — mutating the returned list changed the session state, refuting the
claim. -/
theorem c9_counterexample :
    c9ref.queues 1 = some 0 ∧ c9ref.heap.read 0 = [trackA] ∧
    (get_queue_ref c9ref 1).1 = 0 ∧
    ((get_queue_ref c9ref 1).2.heap.appendAt (get_queue_ref c9ref 1).1 trackB).read 0 =
      [trackA, trackB] ∧
    [trackA, trackB] ≠ [trackA] := by
  decide

end MusicMaster
